import Mathlib

/-!
# Verification of the train-display core

Shallow embedding of the bitmap compositing engine
(`src/modules/image_gen.py`) and the device framing protocol
(`src/modules/ipixel_commands.py`) of the `train-display` repository,
together with proofs of the specification claims about them.

Strings are modelled as `List Char`, byte sequences as `List Nat`
(each element a byte value `< 256`), and Python integers as `Int`/`Nat`.
The compositor is modelled as a function from the render parameters to
the ordered list of paint operations (`alpha_composite` calls) that the
Python code performs: each operation records which glyph region is
composited and at which canvas position.  This determines the canvas
contents pixel-for-pixel, given the (immutable) glyph atlas.
-/

namespace TrainDisplay

/-- Python `str.isdigit` as used by the compositor: the decimal-digit test.
The compositor only ever classifies characters of `str(int)` renderings
and of caller-supplied time strings; the ASCII decimal digits are the
relevant classification. -/
def str_isdigit (c : Char) : Bool :=
  '0' ≤ c ∧ c ≤ '9'

/-- Numeric value of a decimal digit character, `none` when the character
is not a decimal digit.  Models Python `int(ch)` on a single character,
which raises `ValueError` on a non-digit. -/
def charDigit? (c : Char) : Option Nat :=
  if '0' ≤ c ∧ c ≤ '9' then some (c.toNat - '0'.toNat) else none

/-- Python `str(n)` for a natural number: its decimal digit characters,
most significant first (`"0"` for `0`). -/
def pyNatStr (n : Nat) : List Char :=
  Nat.toDigits 10 n

/-- Python `str(n)` for an integer: a leading `'-'` before the decimal
digits of the absolute value when `n` is negative. -/
def pyIntStr (n : Int) : List Char :=
  if n < 0 then '-' :: pyNatStr n.natAbs else pyNatStr n.toNat

/-- Function `split_digits` (src/modules/image_gen.py, lines 7–21), applied to the
`str(...)` rendering of its argument: strip one leading sign character
(`'+'` or `'-'`) if present, keep the characters that satisfy
`str.isdigit` in order, and return `['0']` when none remain. -/
def split_digits (s : List Char) : List Char :=
  let s := match s with
    | c :: rest => if c = '+' ∨ c = '-' then rest else c :: rest
    | [] => []
  let digits := s.filter str_isdigit
  if digits.isEmpty then ['0'] else digits

/-- Function `get_character_from_unifont` (src/modules/image_gen.py, lines 57–81):
the cell rectangle `(left, top, right, bottom)` cropped out of the dense
font sheet for a code point.  `(cp >> 8) & 0xFF` and `cp & 0xFF` are the
high and low bytes; the cell is 16×16 at `(32 + low*16, 64 + high*16)`. -/
def get_character_from_unifont (cp : Nat) : Nat × Nat × Nat × Nat :=
  let high_byte := (cp >>> 8) &&& 0xFF
  let low_byte := cp &&& 0xFF
  let char_x := 32 + low_byte * 16
  let char_y := 64 + high_byte * 16
  (char_x, char_y, char_x + 16, char_y + 16)

/-- The character-width rule shared by `get_text_width` and the label-text
pass (src/modules/image_gen.py, lines 108 and 165): 16 px for `'='`,
`'@'`, `'#'` and for any code point ≥ 128 outside the Cyrillic block
`0x0400–0x04FF`; otherwise 8 px. -/
def char_width (c : Char) : Int :=
  if c = '=' ∨ c = '@' ∨ c = '#' ∨
      (c.toNat ≥ 128 ∧ ¬(0x0400 ≤ c.toNat ∧ c.toNat ≤ 0x04FF)) then 16 else 8

/-! ## The compositor (`ImageGenerator.gen_image`)

The render is modelled as the ordered list of `alpha_composite` calls the
Python method performs.  Each call composites a glyph region of one of the
(immutable) atlas images at an integer canvas position.  A composite at a
non-negative destination is clipped to the canvas rectangle
`[0, width) × [0, height)`; a destination with a negative coordinate makes
Pillow's in-place `alpha_composite` raise
`ValueError("Destination must be non-negative")` — which the platform
badge, pasted at `y = -1`, always does.  -/

/-- A glyph region composited by `gen_image`.  The variants record exactly
which region of which atlas image is pasted:
* `colon` — `self._colon_img` (assets/colon.png);
* `tallDigit d` — the 4×16 region `(d*4, 0, d*4+4, 16)` of
  `self._tall_digits_img` (`get_digit_from_tall_digits`);
* `uniChar cp` — the full 16×16 cell of the dense font sheet selected by
  `get_character_from_unifont` for code point `cp`;
* `uniCharCropped cp l cw` — that cell cropped to `(l, 0, cw, 16)`
  (label-text left cropping, src line 177), composited width `cw - l`;
* `smallDigit d` — the 4×7 region `(d*4, 0, d*4+4, 7)` of
  `self._small_digits_img` (`get_digit_from_small_digits`);
* `plus` — `self._plus_img`;
* `overlay` — `self._overlay_img`. -/
inductive Glyph where
  | colon : Glyph
  | tallDigit (d : Nat) : Glyph
  | uniChar (cp : Nat) : Glyph
  | uniCharCropped (cp : Nat) (cropLeft : Int) (cw : Int) : Glyph
  | smallDigit (d : Nat) : Glyph
  | plus : Glyph
  | overlay : Glyph
  deriving DecidableEq, Repr

/-- One `alpha_composite` call: the glyph region and the canvas position
`(x, y)` it is composited at. -/
structure PaintOp where
  glyph : Glyph
  x : Int
  y : Int
  deriving DecidableEq, Repr

/-- Function `get_digit_from_small_digits` (src lines 40–55) applied to a digit
character: the 4×7 small-digit region.  Both call sites (`split_digits`
output and the delay loop after its `isdigit` guard) pass decimal digit
characters only. -/
def get_digit_from_small_digits (c : Char) : Glyph :=
  .smallDigit (c.toNat - '0'.toNat)

/-- One character of the clock/minutes pass (src lines 141–150).  A `':'`
composites the colon image at `(current_x, 5)` when `current_x + 1 ≤ width`
and advances by 2; any other character is converted by `int(time_char)` —
raising on a non-digit — and composites the tall digit at `(current_x, 5)`
when `current_x + 4 ≤ width`, advancing by 4.  A character failing the
width test is dropped without advancing the cursor. -/
def clockStep (width x : Int) (c : Char) : Except String (List PaintOp × Int) :=
  if c = ':' then
    if x + 1 ≤ width then .ok ([⟨.colon, x, 5⟩], x + 2) else .ok ([], x)
  else
    match charDigit? c with
    | none => .error "invalid literal for int() with base 10"
    | some d =>
      if x + 4 ≤ width then .ok ([⟨.tallDigit d, x, 5⟩], x + 4) else .ok ([], x)

/-- The whole clock/minutes pass: `clockStep` folded over the time string,
returning the paint operations and the final cursor.  An exception raised
by any character aborts the pass (and with it the whole render). -/
def clockPass (width : Int) : Int → List Char → Except String (List PaintOp × Int)
  | x, [] => .ok ([], x)
  | x, c :: cs =>
    match clockStep width x c with
    | .error e => .error e
    | .ok (ops, x') =>
      match clockPass width x' cs with
      | .error e => .error e
      | .ok (ops', x'') => .ok (ops ++ ops', x'')

/-- One character of the label-text pass (src lines 158–180), at cursor
`text_x = x` with target-rectangle left edge `tleft`: skipped entirely when
it ends at or before `tleft` (`tleft - x ≥ char_width`), composited
unmodified at `(x, 0)` when strictly past the edge (`tleft - x < 0`), and
otherwise left-cropped by `tleft - x` and composited at `(tleft, 0)`.
The cursor always advances by `char_width`. -/
def textStep (tleft x : Int) (c : Char) : List PaintOp × Int :=
  let cw := char_width c
  let ops :=
    if tleft - x ≥ cw then []
    else if tleft - x < 0 then [PaintOp.mk (.uniChar c.toNat) x 0]
    else [PaintOp.mk (.uniCharCropped c.toNat (tleft - x) cw) tleft 0]
  (ops, x + cw)

/-- The label-text pass: `textStep` over the text, stopping (`break`)
as soon as the cursor reaches or exceeds `width` (src line 159). -/
def textPass (tleft width : Int) : Int → List Char → List PaintOp
  | _, [] => []
  | x, c :: cs =>
    if x ≥ width then []
    else
      let (ops, x') := textStep tleft x c
      ops ++ textPass tleft width x' cs

/-- Pillow's destination guard in the in-place `Image.alpha_composite(im,
dest)`: a destination with a negative coordinate raises
`ValueError("Destination must be non-negative")` instead of compositing.
Of all the composites `gen_image` performs, only the platform-badge
paints (at `y = -1`) can trip this guard: the clock, label-text, delay
and overlay paints all have `y ∈ {0, 5}` and an `x` that is either a
cursor starting at 0 and only ever increasing, or the (non-negative)
target-rectangle left edge. -/
def destNonNegative (x y : Int) : Bool :=
  0 ≤ x ∧ 0 ≤ y

/-- The platform-badge digit loop (src lines 186–189): each digit
character is composited at `(offset, -1)` by the in-place
`alpha_composite`, whose guard rejects the negative `y`: the very first
digit raises `ValueError("Destination must be non-negative")`, so for a
nonempty digit list the loop aborts and paints nothing. -/
def smallDigitRowChecked : Int → List Char → Except String (List PaintOp)
  | _, [] => .ok []
  | offset, c :: cs =>
    if destNonNegative offset (-1) then
      match smallDigitRowChecked (offset + 4) cs with
      | .error e => .error e
      | .ok ops => .ok (PaintOp.mk (get_digit_from_small_digits c) offset (-1) :: ops)
    else .error "Destination must be non-negative"

/-- The platform badge (src lines 183–189): the digits of the platform
number via `split_digits` (never empty), starting at
`offset = 9 - len(digits)*2`, composited at `y = -1` — where the first
composite raises Pillow's negative-destination `ValueError`. -/
def platformBadgePass (pn : Option Int) : Except String (List PaintOp) :=
  match pn with
  | none => .ok []
  | some n =>
    let digits := split_digits (pyIntStr n)
    smallDigitRowChecked (9 - (digits.length : Int) * 2) digits

/-- The delay digit loop (src lines 195–202): a digit character composites
its small-digit region at `(delay_x, 0)` and advances 4 px, but only when
`delay_x + 4 ≤ width`; a non-digit character is skipped with a printed
warning; a digit failing the width test is dropped without advancing. -/
def delayDigitLoop (width : Int) : Int → List Char → List PaintOp
  | _, [] => []
  | dx, c :: cs =>
    if str_isdigit c then
      if dx + 4 ≤ width then
        PaintOp.mk (get_digit_from_small_digits c) dx 0 :: delayDigitLoop width (dx + 4) cs
      else delayDigitLoop width dx cs
    else delayDigitLoop width dx cs

/-- The delay badge (src lines 191–202): nothing when `int(delay) == 0`;
otherwise the plus image at `(delay_x, 0)` (unconditionally) followed by
the delay digit loop over `str(delay)` starting at `delay_x + 4`. -/
def delayBadgeOps (width delay_x : Int) (delay : Int) : List PaintOp :=
  if delay ≠ 0 then
    PaintOp.mk .plus delay_x 0 :: delayDigitLoop width (delay_x + 4) (pyIntStr delay)
  else []

/-- Python `platform_number is int` (src line 134): an identity comparison
of the argument against the *type object* `int`.  An integer value (and
`None`) is never the same object as the type `int`, so the test is `false`
for every argument `gen_image` receives. -/
def pyIs_int (_platform_number : Option Int) : Bool := false

/-- The arguments of one `gen_image` call together with the canvas
dimensions fixed at `ImageGenerator` construction. -/
structure GenParams where
  width : Int
  height : Int
  time : List Char
  text : List Char
  delay : Int
  platform_number : Option Int := none
  text_x_offset : Int := 0
  deriving DecidableEq, Repr

/-- Method `ImageGenerator.gen_image` (src lines 132–206), as the ordered list of
`alpha_composite` calls it performs, or the exception it raises.

The opening guard is `platform_number is int and not (1 <= platform_number
<= 12)` — its first conjunct (`pyIs_int`) is always false, so the range
test (which Python would not even evaluate; `getD 0` below is immaterial)
never runs and the error is unreachable.  Next, `Image.new` (src line 137)
raises `ValueError` when either canvas dimension is negative.  Then, in
source order: the clock pass from `current_x = 0` (its `int(time_char)`
raising on a non-digit); `delay_x` and the target rectangle's left edge
are the cursor after it; the label-text pass from
`current_x + text_x_offset`; the platform badge when a platform number is
supplied — whose first composite at `y = -1` raises Pillow's
negative-destination `ValueError`; the delay badge; and the full-canvas
overlay last.  All destinations outside the badge are non-negative, and
composites at non-negative destinations are clipped to the canvas. -/
def gen_image (p : GenParams) : Except String (List PaintOp) :=
  if pyIs_int p.platform_number ∧
      ¬(1 ≤ p.platform_number.getD 0 ∧ p.platform_number.getD 0 ≤ 12) then
    .error "Error: Platform number must be between 1 and 12"
  else if p.width < 0 ∨ p.height < 0 then
    .error "Width and height must be >= 0"
  else
    match clockPass p.width 0 p.time with
    | .error e => .error e
    | .ok (clockOps, cx) =>
      let delay_x := cx
      let tleft := cx
      let tOps := textPass tleft p.width (cx + p.text_x_offset) p.text
      match platformBadgePass p.platform_number with
      | .error e => .error e
      | .ok pOps =>
        let dOps := delayBadgeOps p.width delay_x p.delay
        .ok (clockOps ++ tOps ++ pOps ++ dOps ++ [PaintOp.mk .overlay 0 0])

/-! ## The device framing protocol (`ipixel_commands.send_animation`)

`send_animation` (src/modules/ipixel_commands.py, lines 62–74) builds the
command envelope by concatenating hex strings and decoding the result with
`bytes.fromhex`.  It uses `CRC32_checksum` and `get_frame_size` from
`modules/bit_tools.py`, which is imported by `ipixel_commands.py` but not
present under `src/`; those two are modelled from the spec (§4.3). -/

/-- Value of a hexadecimal digit character (both cases), as accepted by
`bytes.fromhex`; 0 for a non-hex character (never hit by the envelope
strings, which are produced by hex formatting). -/
def hexCharVal (c : Char) : Nat :=
  if '0' ≤ c ∧ c ≤ '9' then c.toNat - '0'.toNat
  else if 'a' ≤ c ∧ c ≤ 'f' then 10 + (c.toNat - 'a'.toNat)
  else if 'A' ≤ c ∧ c ≤ 'F' then 10 + (c.toNat - 'A'.toNat)
  else 0

/-- Python `bytes.fromhex`: consecutive pairs of hex characters decoded to bytes.
(Python raises on an odd-length string; the envelope strings built by
`send_animation` have even length whenever the length fields do not
overflow their fixed widths.) -/
def pyBytesFromHex : List Char → List Nat
  | a :: b :: rest => (hexCharVal a * 16 + hexCharVal b) :: pyBytesFromHex rest
  | _ => []

/-- Python `f"{v:0{width}x}"`: the minimal lowercase hex representation of
`v`, left-padded with `'0'` to `width` characters (longer than `width`
when `v ≥ 16 ^ width`). -/
def pyFormatHex (v width : Nat) : List Char :=
  let minimal := Nat.toDigits 16 v
  List.replicate (width - minimal.length) '0' ++ minimal

/-- Python `bytes.hex()`: each byte as two lowercase hex characters. -/
def pyBytesToHex : List Nat → List Char
  | [] => []
  | b :: rest => pyFormatHex b 2 ++ pyBytesToHex rest

/-- One step of the (reflected) CRC-32 bit loop: shift right one bit,
folding in the polynomial `0xEDB88320` when the dropped bit was set. -/
def crc32Round (c : Nat) : Nat :=
  if c % 2 = 1 then (c / 2) ^^^ 0xEDB88320 else c / 2

/-- Fold one byte into a CRC-32 accumulator: xor it in, then run the bit
loop eight times. -/
def crc32Update (c b : Nat) : Nat :=
  crc32Round^[8] (c ^^^ b)

/-- The standard CRC-32 (as computed by `zlib.crc32`): reflected
polynomial `0xEDB88320`, initial value `0xFFFFFFFF`, final xor
`0xFFFFFFFF`. -/
def crc32 (bs : List Nat) : Nat :=
  (bs.foldl crc32Update 0xFFFFFFFF) ^^^ 0xFFFFFFFF

/-- Modelled from the spec: `CRC32_checksum` from `modules/bit_tools.py`
(imported by `ipixel_commands.py`; the file is not under `src/`).
Spec §4.3 step 2: «`checksum = CRC32(innerFrame)` (4 bytes)», taking the
hex-string payload used at the call sites and rendering the CRC-32 of its
decoded bytes as 8 hex characters. -/
def CRC32_checksum (hex : List Char) : List Char :=
  pyFormatHex (crc32 (pyBytesFromHex hex)) 8

/-- Modelled from the spec: `get_frame_size` from `modules/bit_tools.py`
(not under `src/`).  Spec §4.3: «`len8 = fixed-width(8 hex chars) encoding
of byte-length of innerFrame`», «`len4 = fixed-width(4 hex chars) encoding
of byte-length of the inner envelope`»: the byte length of the hex-string
payload (half its character count), as a fixed-width hex field. -/
def get_frame_size (hex : List Char) (n : Nat) : List Char :=
  pyFormatHex (hex.length / 2) n

/-- Function `send_animation` (src lines 62–74) from the GIF container blob onward
(`hex_data = buf.read().hex()` is the hex encoding of the container
bytes, here the parameter `blob`):
`checksum = CRC32_checksum(hex_data)`, `size = get_frame_size(hex_data, 8)`,
and the result is `bytes.fromhex` of
`get_frame_size('FFFF030000' + size + checksum + '0201' + hex_data, 4)
 + '030000' + size + checksum + '0201' + hex_data`. -/
def send_animation (blob : List Nat) : List Nat :=
  let hex_data := pyBytesToHex blob
  let checksum := CRC32_checksum hex_data
  let size := get_frame_size hex_data 8
  pyBytesFromHex
    (get_frame_size
        ("FFFF030000".toList ++ size ++ checksum ++ "0201".toList ++ hex_data) 4
      ++ "030000".toList ++ size ++ checksum ++ "0201".toList ++ hex_data)

/-! ## Statements of the claims in the spec's own words

The following definitions transcribe what the claims assert, to be
compared with the definitions above that embed the source. -/

/-- The sign-stripping rule as the claims word it: remove at most one
leading `'+'` or `'-'`. -/
def dropOneSign : List Char → List Char
  | c :: rest => if c = '+' ∨ c = '-' then rest else c :: rest
  | [] => []

/-- The clock/minutes step as claim C3 words it: a character that would
start at or past `width` is silently dropped (not drawn, cursor not
advanced); otherwise a `':'` paints the colon glyph and advances 2 px and
a digit paints the tall-digit glyph and advances 4 px. -/
def clockStepClaim (width x : Int) (c : Char) : Except String (List PaintOp × Int) :=
  if c = ':' then
    if x ≥ width then .ok ([], x) else .ok ([⟨.colon, x, 5⟩], x + 2)
  else
    match charDigit? c with
    | none => .error "invalid literal for int() with base 10"
    | some d =>
      if x ≥ width then .ok ([], x) else .ok ([⟨.tallDigit d, x, 5⟩], x + 4)

/-- The clock/minutes pass as claim C3 words it: `clockStepClaim` folded
left-to-right. -/
def clockPassClaim (width : Int) : Int → List Char → Except String (List PaintOp × Int)
  | x, [] => .ok ([], x)
  | x, c :: cs =>
    match clockStepClaim width x c with
    | .error e => .error e
    | .ok (ops, x') =>
      match clockPassClaim width x' cs with
      | .error e => .error e
      | .ok (ops', x'') => .ok (ops ++ ops', x'')

/-- The inner frame as claim C2 words it: the sub-command tag
`0x02 0x01` followed by the container blob. -/
def innerFrameClaim (blob : List Nat) : List Nat :=
  [0x02, 0x01] ++ blob

/-- The envelope tail that claim C2 asserts follows the outer length
field: commandTag `0x03 0x00 0x00`, then `len8` and `checksum` computed
over `innerFrameClaim` (tag included), then the inner frame itself. -/
def envelopeTailClaim (blob : List Nat) : List Nat :=
  [0x03, 0x00, 0x00]
    ++ pyBytesFromHex (pyFormatHex (innerFrameClaim blob).length 8)
    ++ pyBytesFromHex (pyFormatHex (crc32 (innerFrameClaim blob)) 8)
    ++ innerFrameClaim blob

/-- The horizontal pixel columns covered by a label-text paint operation,
after PIL clips the composite to the canvas `[0, width)`: an uncropped
cell image is 16 px wide and a cropped one `cw - cropLeft` px.  Paint
operations of the other passes (clock, badges, overlay) are not
label-text paints. -/
def labelPaintsCol (width : Int) (op : PaintOp) (col : Int) : Prop :=
  (match op.glyph with
    | .uniChar _ => op.x ≤ col ∧ col < op.x + 16
    | .uniCharCropped _ l cw => op.x ≤ col ∧ col < op.x + (cw - l)
    | _ => False)
  ∧ 0 ≤ col ∧ col < width

instance (width : Int) (op : PaintOp) (col : Int) :
    Decidable (labelPaintsCol width op col) := by
  unfold labelPaintsCol
  exact match op.glyph with
    | .uniChar _ => instDecidableAnd
    | .uniCharCropped _ _ _ => instDecidableAnd
    | .colon | .tallDigit _ | .smallDigit _ | .plus | .overlay => instDecidableAnd

instance {ε α : Type} [DecidableEq ε] [DecidableEq α] : DecidableEq (Except ε α)
  | .error a, .error b =>
    if h : a = b then .isTrue (by rw [h]) else .isFalse (fun hh => h (Except.error.inj hh))
  | .error _, .ok _ => .isFalse (fun hh => Except.noConfusion hh)
  | .ok _, .error _ => .isFalse (fun hh => Except.noConfusion hh)
  | .ok a, .ok b =>
    if h : a = b then .isTrue (by rw [h]) else .isFalse (fun hh => h (Except.ok.inj hh))

end TrainDisplay



namespace TrainDisplay

/-! ## Theorems -/

lemma and_255_eq_mod (m : Nat) : m &&& 0xFF = m % 256 :=
  Nat.and_pow_two_sub_one_eq_mod m 8

/-- C10: the dense-font-sheet cell lookup is periodic in the code point
with period `0x10000`: `get_character_from_unifont` selects the cell
rectangle determined only by the low 16 bits of the code point, so code
points above `0xFFFF` silently alias to lower-plane cells. -/
theorem unifont_lookup_mod_2_16 (cp : Nat) :
    get_character_from_unifont cp = get_character_from_unifont (cp % 0x10000) := by
  unfold get_character_from_unifont
  simp only [Nat.shiftRight_eq_div_pow, and_255_eq_mod]
  have h256 : (2 : Nat) ^ 8 = 256 := by norm_num
  rw [h256]
  have h1 : cp % 65536 % 256 = cp % 256 := by omega
  have h2 : cp % 65536 / 256 % 256 = cp / 256 % 256 := by omega
  rw [h1, h2]

/-- C1 (code-bug evidence): with `platform_number = 13` — outside `1..12`
— no `InvalidPlatformNumber` is raised: the guard `platform_number is
int` on src line 134 is an identity comparison with the type object
`int`, always false, so the range validation is structurally unreachable.
The render still aborts, but with Pillow's negative-destination
`ValueError` from the first badge composite at `(5, -1)` — an error
unrelated to validation, raised for the in-range platform number 3 just
the same. -/
theorem gen_image_platform_13_aborts :
    gen_image { width := 32, height := 16, time := [], text := [], delay := 0,
                platform_number := some 13 } =
      .error "Destination must be non-negative"
  ∧ gen_image { width := 32, height := 16, time := [], text := [], delay := 0,
                platform_number := some 3 } =
      .error "Destination must be non-negative" := by
  decide

/-- C8: compositing is deterministic — two `gen_image` calls with the same
clock text, label text, delay, platform number, text offset and the same
width/height produce identical paint-operation sequences, hence (with the
same immutable glyph atlas and background) byte-identical canvases. -/
theorem gen_image_deterministic (p q : GenParams) (h : p = q) :
    gen_image p = gen_image q := by rw [h]

theorem gen_image_deterministic_witness :
    gen_image { width := 64, height := 16, time := ['1', '2', ':', '3', '4'],
                text := ['M', 'e'], delay := 5, platform_number := some 3 } =
      gen_image { width := 64, height := 16, time := ['1', '2', ':', '3', '4'],
                  text := ['M', 'e'], delay := 5, platform_number := some 3 } :=
  gen_image_deterministic _ _ rfl

/-- C6 counterexample: on input `"0"` the function returns `["0"]` even
though a digit character remains after the sign strip, so «returns `["0"]`
if and only if no digit characters remain» fails in the only-if
direction. -/
theorem split_digits_zero_cex :
    split_digits ['0'] = ['0'] ∧ (dropOneSign ['0']).filter str_isdigit ≠ [] := by
  decide

lemma split_digits_eq (s : List Char) :
    split_digits s =
      if (dropOneSign s).filter str_isdigit = [] then ['0']
      else (dropOneSign s).filter str_isdigit := by
  unfold split_digits dropOneSign
  cases s with
  | nil => rfl
  | cons c rest => by_cases h : c = '+' ∨ c = '-' <;> simp [h]

/-- C6 amended: `split_digits` strips at most one leading sign character,
retains exactly the decimal-digit characters in their original order
(leading zeros preserved), and returns `["0"]` iff no digit characters
remain after the sign strip **or** the retained digits are themselves
exactly `["0"]`; `"-007"` yields `["0","0","7"]` and `"abc"` yields
`["0"]`. -/
theorem split_digits_spec (s : List Char) :
    (split_digits s = ['0'] ↔
      ((dropOneSign s).filter str_isdigit = [] ∨
        (dropOneSign s).filter str_isdigit = ['0']))
  ∧ ((dropOneSign s).filter str_isdigit ≠ [] →
      split_digits s = (dropOneSign s).filter str_isdigit)
  ∧ split_digits ['-', '0', '0', '7'] = ['0', '0', '7']
  ∧ split_digits ['a', 'b', 'c'] = ['0'] := by
  refine ⟨?_, ?_, by decide, by decide⟩
  · rw [split_digits_eq]
    by_cases h : (dropOneSign s).filter str_isdigit = [] <;> simp [h]
  · intro h
    rw [split_digits_eq, if_neg h]

theorem split_digits_spec_witness :
    split_digits ['4', '2'] = (dropOneSign ['4', '2']).filter str_isdigit :=
  (split_digits_spec ['4', '2']).2.1 (by decide)

/-- C3 counterexample: at canvas width 6 the second `'9'` of `"99"` starts
at cursor 4 < 6, so by the claim it should paint and advance; the code
drops it (it requires `current_x + 4 ≤ width`), so the pass disagrees with
the claim's description. -/
theorem clock_pass_claim_cex :
    clockPass 6 0 ['9', '9'] ≠ clockPassClaim 6 0 ['9', '9'] := by decide

/-- C3 amended: in the clock pass a `':'` paints the colon glyph at
`(x, 5)` and advances 2 px iff `x + 1 ≤ width`, a digit paints the
tall-digit glyph at `(x, 5)` and advances 4 px iff `x + 4 ≤ width`
(so a digit is already dropped when it would merely *extend* past
`width`), a dropped character does not advance the cursor, any character
starting at or past `width` is dropped (or, for a non-digit, raises), and
a non-digit non-colon character raises an error. -/
theorem clockStep_spec (width x : Int) (c : Char) (d : Nat) :
    (clockStep width x ':' =
      .ok (if x + 1 ≤ width then ([⟨.colon, x, 5⟩], x + 2) else ([], x)))
  ∧ (charDigit? c = some d →
      clockStep width x c =
        .ok (if x + 4 ≤ width then ([⟨.tallDigit d, x, 5⟩], x + 4) else ([], x)))
  ∧ (charDigit? c = none → ¬ c = ':' →
      clockStep width x c = .error "invalid literal for int() with base 10")
  ∧ (x ≥ width → clockStep width x c = .ok ([], x) ∨
      clockStep width x c = .error "invalid literal for int() with base 10") := by
  refine ⟨?_, ?_, ?_, ?_⟩
  · by_cases h : x + 1 ≤ width <;> simp [clockStep, h]
  · intro hd
    have hne : ¬ c = ':' := by
      intro h
      subst h
      simp [charDigit?] at hd
    by_cases h : x + 4 ≤ width <;> simp [clockStep, hne, hd, h]
  · intro hd hne
    unfold clockStep
    simp [hne, hd]
  · intro hx
    by_cases hc : c = ':'
    · subst hc
      left
      unfold clockStep
      simp [show ¬ (x + 1 ≤ width) by omega]
    · cases hd : charDigit? c with
      | none =>
        right
        unfold clockStep
        simp [hc, hd]
      | some d =>
        left
        unfold clockStep
        simp [hc, hd, show ¬ (x + 4 ≤ width) by omega]

theorem clockStep_spec_witness :
    clockStep 6 4 '9' =
      .ok (if (4 : Int) + 4 ≤ 6 then ([⟨.tallDigit 9, 4, 5⟩], 4 + 4) else ([], 4)) :=
  (clockStep_spec 6 4 '9' 9).2.1 (by decide)

lemma clockStep_colon (width x : Int) :
    clockStep width x ':' =
      if x + 1 ≤ width then .ok ([⟨.colon, x, 5⟩], x + 2) else .ok ([], x) := by
  unfold clockStep
  rw [if_pos rfl]

lemma clockStep_digit (width x : Int) {c : Char} {d : Nat}
    (hd : charDigit? c = some d) (hc : ¬ c = ':') :
    clockStep width x c =
      if x + 4 ≤ width then .ok ([⟨.tallDigit d, x, 5⟩], x + 4) else .ok ([], x) := by
  unfold clockStep
  rw [if_neg hc, hd]

lemma clockStep_ok_char {width x : Int} {c : Char} {s : List PaintOp × Int}
    (h : clockStep width x c = .ok s) : c = ':' ∨ str_isdigit c = true := by
  by_cases hc : c = ':'
  · exact Or.inl hc
  · right
    unfold clockStep at h
    rw [if_neg hc] at h
    cases hd : charDigit? c with
    | none => rw [hd] at h; cases h
    | some d =>
      unfold charDigit? at hd
      unfold str_isdigit
      split at hd
      · rename_i hcond
        simpa using hcond
      · cases hd

lemma clockStep_ok_of_char {c : Char} (h : c = ':' ∨ str_isdigit c = true)
    (width x : Int) : ∃ s, clockStep width x c = .ok s := by
  rcases h with rfl | hd
  · rw [clockStep_colon]
    by_cases hw : x + 1 ≤ width
    · exact ⟨_, by rw [if_pos hw]⟩
    · exact ⟨_, by rw [if_neg hw]⟩
  · have hdig : charDigit? c = some (c.toNat - '0'.toNat) := by
      unfold charDigit?
      rw [if_pos (by simpa [str_isdigit] using hd)]
    by_cases hc : c = ':'
    · subst hc
      simp [str_isdigit] at hd
    · rw [clockStep_digit width x hdig hc]
      by_cases hw : x + 4 ≤ width
      · exact ⟨_, by rw [if_pos hw]⟩
      · exact ⟨_, by rw [if_neg hw]⟩

lemma clockPass_ok_iff (width : Int) (ts : List Char) : ∀ x : Int,
    (∃ r, clockPass width x ts = .ok r) ↔
      ∀ c ∈ ts, c = ':' ∨ str_isdigit c = true := by
  induction ts with
  | nil =>
    intro x
    exact ⟨fun _ => by simp, fun _ => ⟨([], x), rfl⟩⟩
  | cons c cs ih =>
    intro x
    constructor
    · rintro ⟨r, hr⟩
      intro a ha
      unfold clockPass at hr
      split at hr
      · cases hr
      · rename_i ops x' hs
        split at hr
        · cases hr
        · rename_i ops' x'' hp
          rcases List.mem_cons.mp ha with rfl | hmem
          · exact clockStep_ok_char hs
          · exact ((ih x').mp ⟨_, hp⟩) a hmem
    · intro hall
      obtain ⟨⟨ops, x'⟩, hs⟩ :=
        clockStep_ok_of_char (hall c (List.mem_cons_self c cs)) width x
      obtain ⟨⟨ops', x''⟩, hp⟩ :=
        (ih x').mpr (fun a ha => hall a (List.mem_cons_of_mem c ha))
      refine ⟨(ops ++ ops', x''), ?_⟩
      unfold clockPass
      simp only [hs, hp]

/-- C5 counterexample: the non-digit `'a'` in the clock/minutes field
aborts the render with an exception (`int('a')` raises before the width
check), so the render does not return a canvas. -/
theorem gen_image_nondigit_time_aborts :
    gen_image { width := 32, height := 16, time := ['1', 'a'], text := ['B'],
                delay := 0 } =
      .error "invalid literal for int() with base 10" := by decide

lemma smallDigitRowChecked_cons (offset : Int) (c : Char) (cs : List Char) :
    smallDigitRowChecked offset (c :: cs) =
      .error "Destination must be non-negative" := by
  unfold smallDigitRowChecked
  rw [if_neg (by simp [destNonNegative])]

lemma split_digits_ne_nil (s : List Char) : split_digits s ≠ [] := by
  rw [split_digits_eq]
  split
  · simp
  · assumption

lemma platformBadgePass_some (n : Int) :
    platformBadgePass (some n) = .error "Destination must be non-negative" := by
  show smallDigitRowChecked (9 - ((split_digits (pyIntStr n)).length : Int) * 2)
      (split_digits (pyIntStr n)) = _
  cases hd : split_digits (pyIntStr n) with
  | nil => exact absurd hd (split_digits_ne_nil _)
  | cons c cs => rw [smallDigitRowChecked_cons]

/-- C5 amended: glyph clipping at the canvas edge, truncation at the
width limit and non-digit characters in the delay value (skipped with a
warning) never abort a render; but a render aborts when the clock text
contains a non-digit, non-colon character (`int(time_char)` raises), when
a platform number is supplied (the first badge composite at `y = -1`
raises Pillow's negative-destination `ValueError`), or when a canvas
dimension is negative (`Image.new` raises).  A canvas is returned
precisely otherwise. -/
theorem gen_image_ok_iff (p : GenParams) :
    (∃ ops, gen_image p = .ok ops) ↔
      (0 ≤ p.width ∧ 0 ≤ p.height ∧
        (∀ c ∈ p.time, c = ':' ∨ str_isdigit c = true) ∧
        p.platform_number = none) := by
  unfold gen_image
  rw [if_neg (by simp [pyIs_int])]
  by_cases hwh : p.width < 0 ∨ p.height < 0
  · rw [if_pos hwh]
    constructor
    · rintro ⟨ops, h⟩
      cases h
    · rintro ⟨h1, h2, -, -⟩
      omega
  · rw [if_neg hwh]
    cases hc : clockPass p.width 0 p.time with
    | error e =>
      constructor
      · rintro ⟨ops, h⟩
        cases h
      · rintro ⟨-, -, htime, -⟩
        obtain ⟨r, hr⟩ := (clockPass_ok_iff p.width p.time 0).mpr htime
        rw [hc] at hr
        cases hr
    | ok s =>
      obtain ⟨cOps, cx⟩ := s
      cases hpn : p.platform_number with
      | some n =>
        rw [platformBadgePass_some n]
        constructor
        · rintro ⟨ops, h⟩
          cases h
        · rintro ⟨-, -, -, hnone⟩
          cases hnone
      | none =>
        constructor
        · rintro -
          refine ⟨by omega, by omega, ?_, rfl⟩
          exact (clockPass_ok_iff p.width p.time 0).mp ⟨_, hc⟩
        · rintro -
          exact ⟨_, rfl⟩

lemma pyIntStr_neg (n : Int) (hn : 0 < n) : pyIntStr (-n) = '-' :: pyIntStr n := by
  unfold pyIntStr
  rw [if_pos (by omega), if_neg (by omega)]
  have : (-n).natAbs = n.toNat := by omega
  rw [this]

lemma delayDigitLoop_minus (w dx : Int) (cs : List Char) :
    delayDigitLoop w dx ('-' :: cs) = delayDigitLoop w dx cs := by
  simp [delayDigitLoop, show str_isdigit '-' = false by decide]

lemma delayBadgeOps_neg (w dx n : Int) (hn : 0 < n) :
    delayBadgeOps w dx (-n) = delayBadgeOps w dx n := by
  unfold delayBadgeOps
  rw [if_pos (by omega : (-n : Int) ≠ 0), if_pos (by omega : n ≠ 0),
    pyIntStr_neg n hn, delayDigitLoop_minus]

lemma gen_image_delay_congr (p : GenParams) (d d' : Int)
    (h : ∀ dx : Int, delayBadgeOps p.width dx d = delayBadgeOps p.width dx d') :
    gen_image { p with delay := d } = gen_image { p with delay := d' } := by
  unfold gen_image
  cases hc : clockPass p.width 0 p.time <;>
    cases hpp : platformBadgePass p.platform_number <;>
      simp [hc, hpp, h]

/-- C9: for every positive `n`, rendering with delay `-n` yields exactly
the canvas of delay `n`: the badge is painted (since `-n ≠ 0`), the
leading `'-'` of `str(-n)` fails the `isdigit` test and is skipped
without advancing, and the remaining digits are those of the absolute
value, painted from `delayAnchorX` after the plus glyph. -/
theorem gen_image_neg_delay (p : GenParams) (n : Int) (hn : 0 < n) :
    gen_image { p with delay := -n } = gen_image { p with delay := n }
  ∧ ∀ dx : Int, delayBadgeOps p.width dx (-n) =
      ⟨.plus, dx, 0⟩ :: delayDigitLoop p.width (dx + 4) (pyIntStr n) := by
  constructor
  · exact gen_image_delay_congr p (-n) n (fun dx => delayBadgeOps_neg p.width dx n hn)
  · intro dx
    rw [delayBadgeOps_neg p.width dx n hn]
    unfold delayBadgeOps
    rw [if_pos (by omega : n ≠ 0)]

theorem gen_image_neg_delay_witness :
    gen_image { width := 32, height := 16, time := ['8'], text := ['X'],
                delay := -5 } =
      gen_image { width := 32, height := 16, time := ['8'], text := ['X'],
                  delay := 5 } :=
  (gen_image_neg_delay
    { width := 32, height := 16, time := ['8'], text := ['X'], delay := 0 }
    5 (by decide)).1

/-- C7 (code-bug evidence): the platform badge is never painted.  The
claim's layout (digits at offsets `9 - digitCount*2`, `+4` per digit,
`y = -1`; 12 at offsets 5 and 9, 3 at offset 7) is where the source
*attempts* its composites, but the very first badge composite
`alpha_composite(digit, (offset, -1))` raises Pillow's
negative-destination `ValueError`, so a render with `platformNumber = 12`
(or 3) aborts with that error and paints no badge glyph at all. -/
theorem gen_image_platform_badge_aborts :
    gen_image { width := 64, height := 16, time := ['1'], text := [], delay := 0,
                platform_number := some 12 } =
      .error "Destination must be non-negative"
  ∧ gen_image { width := 64, height := 16, time := ['1'], text := [], delay := 0,
                platform_number := some 3 } =
      .error "Destination must be non-negative"
  ∧ smallDigitRowChecked 5 (split_digits (pyIntStr 12)) =
      .error "Destination must be non-negative"
  ∧ smallDigitRowChecked 7 (split_digits (pyIntStr 3)) =
      .error "Destination must be non-negative" := by
  decide

lemma labelPaintsCol_bounds {w : Int} {op : PaintOp} {col : Int}
    (h : labelPaintsCol w op col) : op.x ≤ col ∧ 0 ≤ col ∧ col < w := by
  obtain ⟨hm, h0, hw⟩ := h
  refine ⟨?_, h0, hw⟩
  cases hg : op.glyph <;> rw [hg] at hm
  case uniChar => exact hm.1
  case uniCharCropped => exact hm.1
  all_goals exact hm.elim

lemma labelPaintsCol_uni {w : Int} {op : PaintOp} {col : Int}
    (h : labelPaintsCol w op col) :
    (∃ cp, op.glyph = .uniChar cp) ∨
      (∃ cp l cw, op.glyph = .uniCharCropped cp l cw) := by
  obtain ⟨hm, _, _⟩ := h
  cases hg : op.glyph <;> rw [hg] at hm
  case uniChar cp => exact Or.inl ⟨cp, rfl⟩
  case uniCharCropped cp l cw => exact Or.inr ⟨cp, l, cw, rfl⟩
  all_goals exact hm.elim

lemma not_labelPaintsCol_of_glyph {w : Int} {op : PaintOp} {col : Int}
    (hg : op.glyph = .colon ∨ (∃ d, op.glyph = .tallDigit d) ∨
      (∃ d, op.glyph = .smallDigit d) ∨ op.glyph = .plus ∨ op.glyph = .overlay) :
    ¬ labelPaintsCol w op col := by
  intro h
  rcases labelPaintsCol_uni h with ⟨cp, he⟩ | ⟨cp, l, cw, he⟩ <;>
    rcases hg with h1 | ⟨d, h1⟩ | ⟨d, h1⟩ | h1 | h1 <;> rw [h1] at he <;> cases he

lemma clockStep_ops_glyphs {width x : Int} {c : Char} {ops : List PaintOp} {x' : Int}
    (hs : clockStep width x c = .ok (ops, x')) :
    ∀ op ∈ ops, op.glyph = .colon ∨ ∃ d, op.glyph = .tallDigit d := by
  intro op hop
  by_cases hc : c = ':'
  · subst hc
    rw [clockStep_colon] at hs
    by_cases hw : x + 1 ≤ width
    · rw [if_pos hw] at hs
      cases hs
      simp at hop
      rw [hop]
      exact Or.inl rfl
    · rw [if_neg hw] at hs
      cases hs
      cases hop
  · cases hd : charDigit? c with
    | none =>
      unfold clockStep at hs
      rw [if_neg hc, hd] at hs
      cases hs
    | some d =>
      rw [clockStep_digit width x hd hc] at hs
      by_cases hw : x + 4 ≤ width
      · rw [if_pos hw] at hs
        cases hs
        simp at hop
        rw [hop]
        exact Or.inr ⟨d, rfl⟩
      · rw [if_neg hw] at hs
        cases hs
        cases hop

lemma clockPass_glyphs (width : Int) (ts : List Char) :
    ∀ (x : Int) (cOps : List PaintOp) (cx : Int),
      clockPass width x ts = .ok (cOps, cx) →
      ∀ op ∈ cOps, op.glyph = .colon ∨ ∃ d, op.glyph = .tallDigit d := by
  induction ts with
  | nil =>
    intro x cOps cx h op hop
    cases h
    cases hop
  | cons c cs ih =>
    intro x cOps cx h op hop
    unfold clockPass at h
    split at h
    · cases h
    · rename_i ops x' hs
      split at h
      · cases h
      · rename_i ops' x'' hp
        cases h
        rcases List.mem_append.mp hop with h1 | h2
        · exact clockStep_ops_glyphs hs op h1
        · exact ih x' _ _ hp op h2

lemma delayDigitLoop_glyphs (w : Int) (cs : List Char) : ∀ (dx : Int) (op : PaintOp),
    op ∈ delayDigitLoop w dx cs → ∃ d, op.glyph = .smallDigit d := by
  induction cs with
  | nil => intro dx op h; cases h
  | cons c cs ih =>
    intro dx op h
    unfold delayDigitLoop at h
    split at h
    · split at h
      · rcases List.mem_cons.mp h with rfl | hm
        · exact ⟨c.toNat - '0'.toNat, rfl⟩
        · exact ih (dx + 4) op hm
      · exact ih dx op h
    · exact ih dx op h

lemma delayBadgeOps_glyphs {w dx d : Int} {op : PaintOp}
    (h : op ∈ delayBadgeOps w dx d) :
    op.glyph = .plus ∨ ∃ d', op.glyph = .smallDigit d' := by
  unfold delayBadgeOps at h
  split at h
  · rcases List.mem_cons.mp h with rfl | hm
    · exact Or.inl rfl
    · exact Or.inr (delayDigitLoop_glyphs w _ _ op hm)
  · cases h

lemma char_width_pos (c : Char) : 0 < char_width c := by
  unfold char_width
  split <;> norm_num

lemma textStep_fst_x {tleft x : Int} {c : Char} {op : PaintOp}
    (h : op ∈ (textStep tleft x c).1) : tleft ≤ op.x := by
  simp only [textStep] at h
  by_cases h1 : tleft - x ≥ char_width c
  · simp [h1] at h
  · by_cases h2 : tleft - x < 0
    · simp [h1, h2] at h
      subst h
      show tleft ≤ x
      omega
    · simp [h1, h2] at h
      subst h
      show tleft ≤ tleft
      exact le_refl tleft

lemma textPass_op_x (tleft w : Int) (cs : List Char) : ∀ (x : Int) (op : PaintOp),
    op ∈ textPass tleft w x cs → tleft ≤ op.x := by
  induction cs with
  | nil => intro x op h; cases h
  | cons c cs ih =>
    intro x op h
    unfold textPass at h
    split at h
    · cases h
    · rcases List.mem_append.mp h with h1 | h2
      · exact textStep_fst_x h1
      · exact ih _ op h2

/-- C4: label-text painting never writes a pixel column outside the
horizontal band `[targetRectLeft, width)` (where `targetRectLeft` is the
cursor reached by the clock pass); moreover a glyph whose extent ends at
or before the target rectangle's left edge is skipped entirely, a glyph
strictly past the edge is drawn unmodified at its cursor, a glyph
straddling the edge is left-cropped and drawn at the edge, and the pass
stops once the cursor reaches or exceeds `width`. -/
theorem label_text_stays_in_band (p : GenParams) (ops cOps : List PaintOp)
    (tleft : Int)
    (hclock : clockPass p.width 0 p.time = .ok (cOps, tleft))
    (hok : gen_image p = .ok ops) :
    (∀ op ∈ ops, ∀ col : Int,
      labelPaintsCol p.width op col → tleft ≤ col ∧ col < p.width)
  ∧ (∀ (x : Int) (c : Char), tleft - x ≥ char_width c →
      (textStep tleft x c).1 = [])
  ∧ (∀ (x : Int) (c : Char), tleft - x < 0 →
      (textStep tleft x c).1 = [⟨.uniChar c.toNat, x, 0⟩])
  ∧ (∀ (x : Int) (c : Char), 0 ≤ tleft - x → tleft - x < char_width c →
      (textStep tleft x c).1 =
        [⟨.uniCharCropped c.toNat (tleft - x) (char_width c), tleft, 0⟩])
  ∧ (∀ (x : Int) (cs : List Char), x ≥ p.width →
      textPass tleft p.width x cs = []) := by
  refine ⟨?_, ?_, ?_, ?_, ?_⟩
  · unfold gen_image at hok
    rw [if_neg (by simp [pyIs_int])] at hok
    by_cases hwh : p.width < 0 ∨ p.height < 0
    · rw [if_pos hwh] at hok
      cases hok
    rw [if_neg hwh, hclock] at hok
    cases hpn : p.platform_number with
    | some n =>
      rw [hpn, platformBadgePass_some n] at hok
      cases hok
    | none =>
    rw [hpn] at hok
    have hops := Except.ok.inj hok
    intro op hop col hcol
    rw [← hops] at hop
    have hbounds := labelPaintsCol_bounds hcol
    rcases List.mem_append.mp hop with hop | hov
    rotate_left
    · -- the overlay op
      simp at hov
      exact absurd hcol
        (not_labelPaintsCol_of_glyph (by rw [hov]; exact Or.inr (Or.inr (Or.inr (Or.inr rfl)))))
    rcases List.mem_append.mp hop with hop | hdel
    rotate_left
    · exact absurd hcol
        (not_labelPaintsCol_of_glyph (Or.inr (Or.inr (by
          rcases delayBadgeOps_glyphs hdel with h | h
          · exact Or.inr (Or.inl h)
          · exact Or.inl h))))
    rcases List.mem_append.mp hop with hop | hplat
    rotate_left
    · -- the (empty) platform badge segment
      cases hplat
    rcases List.mem_append.mp hop with hclk | htxt
    · exact absurd hcol
        (not_labelPaintsCol_of_glyph (by
          rcases clockPass_glyphs p.width p.time 0 cOps tleft hclock op hclk with h | h
          · exact Or.inl h
          · exact Or.inr (Or.inl h)))
    · have hx := textPass_op_x tleft p.width p.text _ op htxt
      exact ⟨le_trans hx hbounds.1, hbounds.2.2⟩
  · intro x c h
    simp [textStep, h]
  · intro x c h
    have hpos := char_width_pos c
    simp [textStep, show ¬ (tleft - x ≥ char_width c) by omega, h]
  · intro x c h0 h1
    simp [textStep, show ¬ (tleft - x ≥ char_width c) by omega,
      show ¬ (tleft - x < 0) by omega]
  · intro x cs hx
    cases cs with
    | nil => rfl
    | cons c cs' => unfold textPass; rw [if_pos hx]

lemma toDigits_length_le (v w : Nat) (hw : 0 < w) (hv : v < 16 ^ w) :
    (Nat.toDigits 16 v).length ≤ w := by
  have h := Nat.toDigitsCore_length 16 (by norm_num) (v + 1) v w hv hw
  simpa [Nat.toDigits] using h

lemma pyFormatHex_length (v w : Nat) (hw : 0 < w) (hv : v < 16 ^ w) :
    (pyFormatHex v w).length = w := by
  have h := toDigits_length_le v w hw hv
  unfold pyFormatHex
  simp only [List.length_append, List.length_replicate]
  omega

lemma pyBytesFromHex_append : ∀ (a b : List Char), a.length % 2 = 0 →
    pyBytesFromHex (a ++ b) = pyBytesFromHex a ++ pyBytesFromHex b
  | [], _, _ => rfl
  | [_], _, h => by simp at h
  | x :: y :: rest, b, h => by
    show (hexCharVal x * 16 + hexCharVal y) :: pyBytesFromHex (rest ++ b) =
      ((hexCharVal x * 16 + hexCharVal y) :: pyBytesFromHex rest) ++ pyBytesFromHex b
    rw [pyBytesFromHex_append rest b (by simp at h; omega)]
    simp

lemma toDigitsCore_single (fuel n : Nat) (ds : List Char) (hn : n < 16)
    (hf : 0 < fuel) :
    Nat.toDigitsCore 16 fuel n ds = Nat.digitChar n :: ds := by
  obtain ⟨f, rfl⟩ : ∃ f, fuel = f + 1 := ⟨fuel - 1, by omega⟩
  unfold Nat.toDigitsCore
  rw [if_pos (by omega : n / 16 = 0), Nat.mod_eq_of_lt hn]

lemma toDigitsCore_pair (fuel n : Nat) (ds : List Char) (h16 : 16 ≤ n)
    (hn : n < 256) (hf : 2 ≤ fuel) :
    Nat.toDigitsCore 16 fuel n ds =
      Nat.digitChar (n / 16) :: Nat.digitChar (n % 16) :: ds := by
  obtain ⟨f, rfl⟩ : ∃ f, fuel = f + 1 := ⟨fuel - 1, by omega⟩
  unfold Nat.toDigitsCore
  rw [if_neg (by omega : ¬ n / 16 = 0),
    toDigitsCore_single f (n / 16) _ (by omega) (by omega)]

lemma pyFormatHex_byte (b : Nat) (hb : b < 256) :
    pyFormatHex b 2 = [Nat.digitChar (b / 16), Nat.digitChar (b % 16)] := by
  unfold pyFormatHex Nat.toDigits
  by_cases h16 : b < 16
  · rw [toDigitsCore_single (b + 1) b [] h16 (by omega)]
    have h0 : b / 16 = 0 := by omega
    have hm : b % 16 = b := Nat.mod_eq_of_lt h16
    rw [h0, hm]
    rfl
  · rw [toDigitsCore_pair (b + 1) b [] (by omega) hb (by omega)]
    rfl

lemma hexCharVal_digitChar (x : Nat) (hx : x < 16) :
    hexCharVal (Nat.digitChar x) = x := by
  interval_cases x <;> rfl

lemma pyBytesFromHex_byte (b : Nat) (hb : b < 256) :
    pyBytesFromHex (pyFormatHex b 2) = [b] := by
  rw [pyFormatHex_byte b hb]
  unfold pyBytesFromHex
  rw [hexCharVal_digitChar _ (by omega), hexCharVal_digitChar _ (by omega)]
  have h : b / 16 * 16 + b % 16 = b := by omega
  rw [h]
  rfl

lemma pyBytesToHex_length (bs : List Nat) (hb : ∀ b ∈ bs, b < 256) :
    (pyBytesToHex bs).length = 2 * bs.length := by
  induction bs with
  | nil => rfl
  | cons b rest ih =>
    have hlen : (pyFormatHex b 2).length = 2 :=
      pyFormatHex_length b 2 (by norm_num)
        (by simpa using hb b (List.mem_cons_self b rest))
    unfold pyBytesToHex
    rw [List.length_append, hlen, ih (fun a ha => hb a (List.mem_cons_of_mem b ha))]
    simp
    omega

lemma pyBytesToHex_roundtrip (bs : List Nat) (hb : ∀ b ∈ bs, b < 256) :
    pyBytesFromHex (pyBytesToHex bs) = bs := by
  induction bs with
  | nil => rfl
  | cons b rest ih =>
    have hblt : b < 256 := hb b (List.mem_cons_self b rest)
    have hlen : (pyFormatHex b 2).length = 2 :=
      pyFormatHex_length b 2 (by norm_num) (by simpa using hblt)
    show pyBytesFromHex (pyFormatHex b 2 ++ pyBytesToHex rest) = b :: rest
    rw [pyBytesFromHex_append _ _ (by rw [hlen]), pyBytesFromHex_byte b hblt,
      ih (fun a ha => hb a (List.mem_cons_of_mem b ha))]
    rfl

lemma crc32Round_lt {c : Nat} (hc : c < 2 ^ 32) : crc32Round c < 2 ^ 32 := by
  unfold crc32Round
  split
  · exact Nat.xor_lt_two_pow (by omega) (by norm_num)
  · omega

lemma crc32Round_iter_lt (k : Nat) {c : Nat} (hc : c < 2 ^ 32) :
    crc32Round^[k] c < 2 ^ 32 := by
  induction k generalizing c with
  | zero => exact hc
  | succ j ih =>
    rw [Function.iterate_succ_apply]
    exact ih (crc32Round_lt hc)

lemma crc32Update_lt {c b : Nat} (hc : c < 2 ^ 32) (hb : b < 256) :
    crc32Update c b < 2 ^ 32 :=
  crc32Round_iter_lt 8 (Nat.xor_lt_two_pow hc (by omega))

lemma crc32_lt (bs : List Nat) (hb : ∀ b ∈ bs, b < 256) : crc32 bs < 2 ^ 32 := by
  unfold crc32
  refine Nat.xor_lt_two_pow ?_ (by norm_num)
  have inv : ∀ (l : List Nat), (∀ b ∈ l, b < 256) → ∀ acc : Nat, acc < 2 ^ 32 →
      l.foldl crc32Update acc < 2 ^ 32 := by
    intro l
    induction l with
    | nil => intro _ acc hacc; exact hacc
    | cons b rest ih =>
      intro hl acc hacc
      exact ih (fun a ha => hl a (List.mem_cons_of_mem b ha))
        (crc32Update acc b)
        (crc32Update_lt hacc (hl b (List.mem_cons_self b rest)))
  exact inv bs hb 0xFFFFFFFF (by norm_num)

/-- C2 counterexample: for the one-byte container blob `[0xAB]` the
envelope built by `send_animation` does not end with the tail the claim
describes — with any outer length field — because the code computes
`len8` and the checksum over the blob alone, not over
`0x02 0x01 ++ blob`: the actual `len8` field encodes 1 where the claim
requires 3. -/
theorem send_animation_tag_excluded_cex :
    ¬ (envelopeTailClaim [0xAB] <:+ send_animation [0xAB]) := by decide

/-- C2 amended: the envelope is `(outer length field) ++ commandTag
0x03 0x00 0x00 ++ len8 ++ checksum ++ 0x02 0x01 ++ containerBlob`, where
`len8` is the fixed-width 8-hex-character encoding of the byte length of
the container blob **alone** and `checksum` is the CRC32 of the container
blob **alone** (the sub-command tag is excluded from both), and the outer
length field encodes 2 plus the byte length of the inner envelope. -/
theorem send_animation_envelope (blob : List Nat) (hb : ∀ b ∈ blob, b < 256)
    (hlen : blob.length + 15 < 65536) :
    send_animation blob =
      pyBytesFromHex (pyFormatHex (blob.length + 15) 4)
        ++ [0x03, 0x00, 0x00]
        ++ pyBytesFromHex (pyFormatHex blob.length 8)
        ++ pyBytesFromHex (pyFormatHex (crc32 blob) 8)
        ++ [0x02, 0x01] ++ blob := by
  have hhex : pyBytesFromHex (pyBytesToHex blob) = blob :=
    pyBytesToHex_roundtrip blob hb
  have hhlen : (pyBytesToHex blob).length = 2 * blob.length :=
    pyBytesToHex_length blob hb
  have hbl16 : blob.length < 16 ^ 8 := by
    have h : (16 : Nat) ^ 8 = 4294967296 := by norm_num
    omega
  have hsz : (pyFormatHex blob.length 8).length = 8 :=
    pyFormatHex_length _ 8 (by norm_num) hbl16
  have hcrc : crc32 blob < 16 ^ 8 := by
    have h1 := crc32_lt blob hb
    have h2 : (16 : Nat) ^ 8 = 2 ^ 32 := by norm_num
    omega
  have hck : (pyFormatHex (crc32 blob) 8).length = 8 :=
    pyFormatHex_length _ 8 (by norm_num) hcrc
  have hout : (pyFormatHex (blob.length + 15) 4).length = 4 := by
    refine pyFormatHex_length _ 4 (by norm_num) ?_
    have h : (16 : Nat) ^ 4 = 65536 := by norm_num
    omega
  have h2 : 2 * blob.length / 2 = blob.length := by omega
  simp only [send_animation, CRC32_checksum, get_frame_size, hhex, hhlen, h2]
  have h10 : ("FFFF030000".toList).length = 10 := rfl
  have h4 : ("0201".toList).length = 4 := rfl
  have houtlen :
      ("FFFF030000".toList ++ pyFormatHex blob.length 8
        ++ pyFormatHex (crc32 blob) 8 ++ "0201".toList
        ++ pyBytesToHex blob).length / 2 = blob.length + 15 := by
    simp only [List.length_append, hsz, hck, hhlen, h10, h4]
    omega
  rw [houtlen]
  simp only [List.append_assoc]
  rw [pyBytesFromHex_append _ _ (by rw [hout]),
    pyBytesFromHex_append _ _ (by decide),
    pyBytesFromHex_append _ _ (by rw [hsz]),
    pyBytesFromHex_append _ _ (by rw [hck]),
    pyBytesFromHex_append _ _ (by decide),
    hhex]
  rfl

theorem send_animation_envelope_witness :
    send_animation [0xAB] =
      pyBytesFromHex (pyFormatHex (([0xAB] : List Nat).length + 15) 4)
        ++ [0x03, 0x00, 0x00]
        ++ pyBytesFromHex (pyFormatHex ([0xAB] : List Nat).length 8)
        ++ pyBytesFromHex (pyFormatHex (crc32 [0xAB]) 8)
        ++ [0x02, 0x01] ++ [0xAB] :=
  send_animation_envelope [0xAB] (by decide) (by decide)

theorem label_text_stays_in_band_witness :
    (4 : Int) ≤ 11 ∧ (11 : Int) < 16 :=
  (label_text_stays_in_band
    { width := 16, height := 16, time := ['1'], text := ['A', 'B'], delay := 0,
      text_x_offset := -1 }
    [⟨.tallDigit 1, 0, 5⟩, ⟨.uniCharCropped 'A'.toNat 1 8, 4, 0⟩,
      ⟨.uniChar 'B'.toNat, 11, 0⟩, ⟨.overlay, 0, 0⟩]
    [⟨.tallDigit 1, 0, 5⟩] 4 (by decide) (by decide)).1
    ⟨.uniChar 'B'.toNat, 11, 0⟩ (by decide) 11 (by decide)

end TrainDisplay
